import Mathlib

/-!
Verification of the gruesome repository's Z-Machine static-analysis tools.

The definitions below are a shallow embedding of the Python sources:
- `debug_execution_trace.py` (header parsing, instruction decoding, tracing),
- `scripts/analyze_z3_properties.py` (V3 property-table compliance walk),
- `utilities/utilities/zmachine_decoder.py` (text and property-entry decoding).

Byte buffers are modelled as `List Nat`; every read that the Python code
performs through a clamped accessor is translated with the same clamp, and
every read that can raise in Python is translated as `Option`.
-/

namespace ZMach

/-- Lower-case hex digit for a nibble, mirroring Python's `x` format code. -/
def hexDigitChar (n : Nat) : Char :=
  if n < 10 then Char.ofNat (48 + n) else Char.ofNat (87 + n)

/-- Two-digit lower-case hex rendering of a byte, mirroring Python's
`02x` format specifier for values below 256 (all opcodes are below 32). -/
def hex2 (n : Nat) : String :=
  String.mk [hexDigitChar (n / 16 % 16), hexDigitChar (n % 16)]

/-- Result of `ZMachineAnalyzer.decode_instruction_at` and its helpers:
the tuple `(opcode_name, next_pc, operands, store_var)`. -/
structure DecodeResult where
  name : String
  nextPc : Nat
  operands : List Nat
  store_var : Option Nat
deriving DecidableEq, Repr

/-- `ZMachineAnalyzer.get_byte`: reads past the buffer end are clamped to 0. -/
def get_byte (data : List Nat) (addr : Nat) : Nat :=
  if data.length ≤ addr then 0 else data.getD addr 0

/-- `ZMachineAnalyzer.get_word`: big-endian 16-bit read; if the second byte
would fall past the buffer end the whole word is clamped to 0. -/
def get_word (data : List Nat) (addr : Nat) : Nat :=
  if data.length ≤ addr + 1 then 0
  else 256 * data.getD addr 0 + data.getD (addr + 1) 0

/-- Long-form (2OP) opcode-name table from `decode_long_form`. -/
def long_op_names (opcode : Nat) : Option String :=
  match opcode with
  | 0x01 => some "je" | 0x02 => some "jl" | 0x03 => some "jg"
  | 0x04 => some "dec_chk" | 0x05 => some "inc_chk" | 0x06 => some "jin"
  | 0x07 => some "test" | 0x08 => some "or" | 0x09 => some "and"
  | 0x0A => some "test_attr" | 0x0B => some "set_attr" | 0x0C => some "clear_attr"
  | 0x0D => some "store" | 0x0E => some "insert_obj" | 0x0F => some "loadw"
  | 0x10 => some "loadb" | 0x11 => some "get_prop" | 0x12 => some "get_prop_addr"
  | 0x13 => some "get_next_prop" | 0x14 => some "add" | 0x15 => some "sub"
  | 0x16 => some "mul" | 0x17 => some "div" | 0x18 => some "mod"
  | 0x19 => some "call_2s" | 0x1A => some "call_2n" | 0x1B => some "set_colour"
  | 0x1C => some "throw"
  | _ => none

/-- 2OP opcodes that take a trailing store-variable byte. -/
def long_store_opcodes : List Nat :=
  [0x01, 0x02, 0x03, 0x04, 0x05, 0x06, 0x07, 0x08, 0x09, 0x0A,
   0x13, 0x14, 0x15, 0x16, 0x17, 0x18, 0x19, 0x1A]

/-- `decode_long_form`.  In the source, bit 6 and bit 5 of the opcode byte
select each operand's type (small constant vs variable), but both branches
read exactly one byte, so the operand offsets are fixed at pc+1 and pc+2. -/
def decode_long_form (data : List Nat) (pc : Nat) : DecodeResult :=
  let opcode_byte := get_byte data pc
  let opcode := opcode_byte &&& 0x1F
  let op1 := get_byte data (pc + 1)
  let op2 := get_byte data (pc + 2)
  let has_store := long_store_opcodes.contains opcode
  let store_var := if has_store then some (get_byte data (pc + 3)) else none
  let next_pc := if has_store then pc + 4 else pc + 3
  let name := (long_op_names opcode).getD ("unknown_2op_" ++ hex2 opcode)
  ⟨name, next_pc, [op1, op2], store_var⟩

/-- Short-form 1OP opcode-name table from `decode_short_form`. -/
def short_1op_names (opcode : Nat) : Option String :=
  match opcode with
  | 0x00 => some "jz" | 0x01 => some "get_sibling" | 0x02 => some "get_child"
  | 0x03 => some "get_parent" | 0x04 => some "get_prop_len" | 0x05 => some "inc"
  | 0x06 => some "dec" | 0x07 => some "print_addr" | 0x08 => some "call_1s"
  | 0x09 => some "remove_obj" | 0x0A => some "print_obj" | 0x0B => some "ret"
  | 0x0C => some "jump" | 0x0D => some "print_paddr" | 0x0E => some "load"
  | 0x0F => some "not"
  | _ => none

/-- Short-form 0OP opcode-name table from `decode_short_form`. -/
def short_0op_names (opcode : Nat) : Option String :=
  match opcode with
  | 0x00 => some "rtrue" | 0x01 => some "rfalse" | 0x02 => some "print"
  | 0x03 => some "print_ret" | 0x04 => some "nop" | 0x05 => some "save"
  | 0x06 => some "restore" | 0x07 => some "restart" | 0x08 => some "ret_popped"
  | 0x09 => some "pop" | 0x0A => some "quit" | 0x0B => some "new_line"
  | 0x0C => some "show_status" | 0x0D => some "verify" | 0x0E => some "extended"
  | 0x0F => some "piracy"
  | _ => none

/-- 1OP opcodes that take a trailing store-variable byte. -/
def short_1op_store_opcodes : List Nat :=
  [0x01, 0x02, 0x03, 0x04, 0x05, 0x06, 0x08, 0x0E, 0x0F]

/-- `decode_short_form`: operand type in bits 5-4 (0 large constant, 1 small
constant, 2 variable, 3 omitted / 0OP). -/
def decode_short_form (data : List Nat) (pc : Nat) : DecodeResult :=
  let opcode_byte := get_byte data pc
  let opcode := opcode_byte &&& 0x0F
  let op_type := (opcode_byte &&& 0x30) >>> 4
  let operands :=
    if op_type == 0 then [get_word data (pc + 1)]
    else if op_type == 3 then []
    else [get_byte data (pc + 1)]
  let after_ops := if op_type == 0 then pc + 3 else if op_type == 3 then pc + 1 else pc + 2
  let has_store := op_type != 3 && short_1op_store_opcodes.contains opcode
  let store_var := if has_store then some (get_byte data after_ops) else none
  let next_pc := if has_store then after_ops + 1 else after_ops
  let name :=
    if op_type != 3 then
      (short_1op_names opcode).getD ("unknown_" ++ toString op_type ++ "op_" ++ hex2 opcode)
    else
      (short_0op_names opcode).getD ("unknown_" ++ toString op_type ++ "op_" ++ hex2 opcode)
  ⟨name, next_pc, operands, store_var⟩

/-- Variable-form opcode-name table from `decode_variable_form`. -/
def var_op_names (opcode : Nat) : Option String :=
  match opcode with
  | 0x00 => some "call_vs" | 0x01 => some "storew" | 0x02 => some "storeb"
  | 0x03 => some "put_prop" | 0x04 => some "sread" | 0x05 => some "print_char"
  | 0x06 => some "print_num" | 0x07 => some "random" | 0x08 => some "push"
  | 0x09 => some "pull" | 0x0A => some "split_window" | 0x0B => some "set_window"
  | 0x0C => some "call_vs2" | 0x0D => some "erase_window" | 0x0E => some "erase_line"
  | 0x0F => some "set_cursor" | 0x10 => some "get_cursor" | 0x11 => some "set_text_style"
  | 0x12 => some "buffer_mode" | 0x13 => some "output_stream" | 0x14 => some "input_stream"
  | 0x15 => some "sound_effect" | 0x16 => some "read_char" | 0x17 => some "scan_table"
  | 0x18 => some "not" | 0x19 => some "call_vn" | 0x1A => some "call_vn2"
  | 0x1B => some "tokenise" | 0x1C => some "encode_text" | 0x1D => some "copy_table"
  | 0x1E => some "print_table" | 0x1F => some "check_arg_count"
  | _ => none

/-- VAR opcodes that take a trailing store-variable byte. -/
def var_store_opcodes : List Nat :=
  [0x00, 0x01, 0x02, 0x03, 0x04, 0x05, 0x06, 0x07, 0x08, 0x09, 0x0A, 0x0B]

/-- Operand loop of `decode_variable_form`: the slots argument is the loop
index list `[0, 1, 2, 3]`; each slot's 2-bit type field is read from the
types byte, `0b11` terminates, large constants consume two bytes, small
constants and variables one. -/
def decode_var_operands (data : List Nat) (types_byte : Nat) :
    List Nat → Nat → List Nat × Nat
  | [], next_pc => ([], next_pc)
  | i :: rest, next_pc =>
    let op_type := (types_byte >>> (6 - 2 * i)) &&& 0x03
    if op_type == 3 then ([], next_pc)
    else if op_type == 0 then
      let r := decode_var_operands data types_byte rest (next_pc + 2)
      (get_word data next_pc :: r.1, r.2)
    else
      let r := decode_var_operands data types_byte rest (next_pc + 1)
      (get_byte data next_pc :: r.1, r.2)

/-- `decode_variable_form`: opcode in the low 5 bits, a types byte at pc+1,
then up to four operands and an optional store byte. -/
def decode_variable_form (data : List Nat) (pc : Nat) : DecodeResult :=
  let opcode_byte := get_byte data pc
  let opcode := opcode_byte &&& 0x1F
  let types_byte := get_byte data (pc + 1)
  let ops := decode_var_operands data types_byte [0, 1, 2, 3] (pc + 2)
  let has_store := var_store_opcodes.contains opcode
  let store_var := if has_store then some (get_byte data ops.2) else none
  let next_pc := if has_store then ops.2 + 1 else ops.2
  let name := (var_op_names opcode).getD ("unknown_var_" ++ hex2 opcode)
  ⟨name, next_pc, ops.1, store_var⟩

/-- `ZMachineAnalyzer.decode_instruction_at`: sentinel for an out-of-range
pc, otherwise form dispatch on the opcode byte's top bits. -/
def decode_instruction_at (data : List Nat) (pc : Nat) : DecodeResult :=
  if data.length ≤ pc then ⟨"EOF", pc, [], none⟩
  else if get_byte data pc &&& 0x80 == 0 then decode_long_form data pc
  else if get_byte data pc &&& 0x40 == 0 then decode_short_form data pc
  else decode_variable_form data pc

/-- Memory-region label used by the trace annotations. -/
inductive Region where
  | dynamic
  | static
  | high
deriving DecidableEq, Repr

/-- Region branch of `trace_from_start` (lines 217-220): a strict comparison
against `high_memory` selects the high-memory warning, otherwise a strict
comparison against `static_memory` selects the static-memory note, otherwise
no label (dynamic memory). -/
def region_of (pc high_memory static_memory : Nat) : Region :=
  if high_memory < pc then Region.high
  else if static_memory < pc then Region.static
  else Region.dynamic

/-- The trace's high-memory warning condition `pc > self.high_memory`. -/
def emits_high_memory_warning (pc high_memory : Nat) : Bool :=
  decide (high_memory < pc)

/-- Modelled from the spec: `classify(address, header)` — Dynamic if
`address < staticMemoryBase`; Static if
`staticMemoryBase ≤ address < highMemoryBase`; High otherwise.  Written from
the spec's words for comparison with `region_of`, the classifier the code
actually implements. -/
def classify_spec (address staticMemoryBase highMemoryBase : Nat) : Region :=
  if address < staticMemoryBase then Region.dynamic
  else if address < highMemoryBase then Region.static
  else Region.high

/-- Terminal opcodes recognised by `trace_from_start`. -/
def is_terminal_opcode (name : String) : Bool :=
  name == "rtrue" || name == "rfalse" || name == "quit"

/-- One annotated step of the trace: address, mnemonic, operands, store
target, memory-region label and the raw consumed bytes (at most 8 shown). -/
structure TraceStep where
  pc : Nat
  opcode_name : String
  operands : List Nat
  store_var : Option Nat
  region : Region
  raw_bytes : List Nat
deriving DecidableEq, Repr

/-- Loop body of `trace_from_start`: up to `fuel` iterations; stops early
when pc leaves the buffer (no step recorded) or when a terminal opcode is
decoded (that step is still recorded). -/
def trace_steps (data : List Nat) (high_memory static_memory : Nat) :
    Nat → Nat → List TraceStep
  | _, 0 => []
  | pc, fuel + 1 =>
    if data.length ≤ pc then []
    else
      let r := decode_instruction_at data pc
      let step : TraceStep :=
        ⟨pc, r.name, r.operands, r.store_var, region_of pc high_memory static_memory,
          (List.range (min 8 (r.nextPc - pc))).map fun j => get_byte data (pc + j)⟩
      if is_terminal_opcode r.name then [step]
      else trace_steps data high_memory static_memory r.nextPc fuel |>.cons step

/-- The trajectory condition of C8's "exactly maxSteps" case: for `fuel`
successive decodes starting at `pc`, the pc stays inside the buffer and no
terminal opcode is decoded. -/
def runs_free (data : List Nat) : Nat → Nat → Bool
  | _, 0 => true
  | pc, fuel + 1 =>
    if data.length ≤ pc then false
    else
      let r := decode_instruction_at data pc
      if is_terminal_opcode r.name then false
      else runs_free data r.nextPc fuel

/-- The header fields parsed by `ZMachineAnalyzer.__init__`. -/
structure ZHeader where
  version : Nat
  high_memory : Nat
  start_pc : Nat
  dictionary : Nat
  object_table : Nat
  global_variables : Nat
  static_memory : Nat
deriving DecidableEq, Repr

/-- `self.data[0]`: raises (returns `none`) on an empty buffer. -/
def read_byte0 (data : List Nat) : Option Nat :=
  if 0 < data.length then some (data.getD 0 0) else none

/-- `struct.unpack` of a big-endian word from `data[addr:addr+2]`: raises
(returns `none`) unless both bytes are present. -/
def unpack_word (data : List Nat) (addr : Nat) : Option Nat :=
  if addr + 2 ≤ data.length then some (256 * data.getD addr 0 + data.getD (addr + 1) 0)
  else none

/-- Header parsing from `ZMachineAnalyzer.__init__`: version at offset 0 as
one byte, then big-endian words at offsets 4, 6, 8, 10, 12, 14; any failed
read aborts the parse (the source raises at the first failing read, which
yields the same `Option` value as matching all reads at once). -/
def parse_header (data : List Nat) : Option ZHeader :=
  match read_byte0 data, unpack_word data 4, unpack_word data 6, unpack_word data 8,
        unpack_word data 10, unpack_word data 12, unpack_word data 14 with
  | some version, some high_memory, some start_pc, some dictionary, some object_table,
      some global_variables, some static_memory =>
    some ⟨version, high_memory, start_pc, dictionary, object_table, global_variables,
          static_memory⟩
  | _, _, _, _, _, _, _ => none

/-- A V3 property-size violation record from `analyze_object_properties`. -/
structure Violation where
  object : Nat
  property : Nat
  size : Nat
  size_byte : Nat
  address : Nat
deriving DecidableEq, Repr

/-- The basic (V3 single-byte) property-size formula
`((size_byte >> 5) & 0x07) + 1`. -/
def basic_prop_size (size_byte : Nat) : Nat :=
  ((size_byte >>> 5) &&& 0x07) + 1

/-- Property-list loop of `analyze_object_properties`: walks entries while
the address is in bounds and fewer than 50 properties have been seen; a zero
size byte terminates; an entry whose decoded size exceeds 8 is recorded as a
Violation.  Returns the violations together with the final property count. -/
def walk_properties (data : List Nat) (obj_num addr prop_count : Nat) :
    List Violation × Nat :=
  if h : addr < data.length ∧ prop_count < 50 then
    if data.getD addr 0 == 0 then ([], prop_count)
    else if 8 < basic_prop_size (data.getD addr 0) then
      (⟨obj_num, data.getD addr 0 &&& 0x1F, basic_prop_size (data.getD addr 0),
          data.getD addr 0, addr⟩ ::
        (walk_properties data obj_num
          (addr + 1 + basic_prop_size (data.getD addr 0)) (prop_count + 1)).1,
       (walk_properties data obj_num
          (addr + 1 + basic_prop_size (data.getD addr 0)) (prop_count + 1)).2)
    else
      walk_properties data obj_num
        (addr + 1 + basic_prop_size (data.getD addr 0)) (prop_count + 1)
  else ([], prop_count)
termination_by 50 - prop_count
decreasing_by all_goals omega

/-- `analyze_object_properties`: an out-of-bounds property table yields no
violations; otherwise the object name (first byte = length in words) is
skipped and the property list walked from just after it. -/
def analyze_object_properties (data : List Nat) (obj_num prop_table_addr : Nat) :
    List Violation × Nat :=
  if data.length ≤ prop_table_addr then ([], 0)
  else
    let name_len_words := data.getD prop_table_addr 0
    let name_bytes := name_len_words * 2
    let prop_start := prop_table_addr + 1 + name_bytes
    walk_properties data obj_num prop_start 0

/-- Per-object record of the object walk: the analysed object number, its
property-table pointer, the violations found and the property count. -/
structure ObjAnalysis where
  obj_num : Nat
  prop_table_addr : Nat
  violations : List Violation
  prop_count : Nat
deriving DecidableEq, Repr

/-- Record built for one analysed object in the object loop. -/
def obj_entry (data : List Nat) (obj_num prop_table_addr : Nat) : ObjAnalysis :=
  ⟨obj_num, prop_table_addr,
   (analyze_object_properties data obj_num prop_table_addr).1,
   (analyze_object_properties data obj_num prop_table_addr).2⟩

/-- Object loop of `analyze_properties`: 9-byte entries, property-table
pointer in bytes 7-8, zero pointer ends the walk, safety cap after
object 100. -/
def walk_objects (data : List Nat) (obj_num addr : Nat) : List ObjAnalysis :=
  if addr < data.length - 9 then
    if data.length < addr + 9 then []
    else if 256 * data.getD (addr + 7) 0 + data.getD (addr + 8) 0 == 0 then []
    else if h : 100 < obj_num + 1 then
      [obj_entry data obj_num (256 * data.getD (addr + 7) 0 + data.getD (addr + 8) 0)]
    else
      obj_entry data obj_num (256 * data.getD (addr + 7) 0 + data.getD (addr + 8) 0) ::
        walk_objects data (obj_num + 1) (addr + 9)
  else []
termination_by 101 - obj_num
decreasing_by all_goals omega

/-- The object-table address word read by `Z3PropertyAnalyzer.__init__`
from offsets 0x0A-0x0B. -/
def z3_object_table_addr (data : List Nat) : Nat :=
  256 * data.getD 10 0 + data.getD 11 0

/-- Object entries start after the 62-byte property-defaults table. -/
def obj_entries_start (data : List Nat) : Nat :=
  z3_object_table_addr data + 62

/-- Concatenation of the per-object violation lists, mirroring the
`violations.extend(...)` accumulation in `analyze_properties`. -/
def collect_violations : List ObjAnalysis → List Violation
  | [] => []
  | o :: rest => o.violations ++ collect_violations rest

/-- `Z3PropertyAnalyzer.analyze_properties`: walks objects from
`object_table_addr + 62`, starting at object number 1. -/
def analyze_properties (data : List Nat) : List Violation :=
  collect_violations (walk_objects data 1 (obj_entries_start data))

/-- `main`'s exit status on a successful run: `sys.exit(len(violations))`. -/
def main_exit_code (data : List Nat) : Nat :=
  (analyze_properties data).length

/-- Result of `decode_property_entry`: the tuple
`(property_number, property_size, property_data, next_offset)`. -/
structure PropEntryResult where
  number : Option Nat
  size : Option Nat
  data_bytes : Option (List Nat)
  next_offset : Nat
deriving DecidableEq, Repr

/-- Extended (V4+) property-size formula of `decode_property_entry`: the
leading byte's low 6 bits, with a raw value of 0 meaning 64. -/
def ext_prop_size (size_byte : Nat) : Nat :=
  if size_byte &&& 0x3F == 0 then 64 else size_byte &&& 0x3F

/-- `zmachine_decoder.decode_property_entry`: the property number is the
leading byte's low 5 bits; with the top bit set the size is the leading
byte's low 6 bits (0 meaning 64) and the data starts two bytes in, otherwise
the basic size formula applies and the data starts one byte in. -/
def decode_property_entry (data : List Nat) (offset : Nat) : PropEntryResult :=
  if data.length ≤ offset then ⟨none, none, none, offset⟩
  else
    let size_byte := data.getD offset 0
    let prop_number := size_byte &&& 0x1F
    let ext := size_byte &&& 0x80 != 0
    let prop_size := if ext then ext_prop_size size_byte else basic_prop_size size_byte
    let data_start := if ext then offset + 2 else offset + 1
    let property_data := (data.drop data_start).take prop_size
    ⟨some prop_number, some prop_size, some property_data, data_start + prop_size⟩

/-- The 26-letter base alphabet of `decode_zmachine_text`. -/
def zscii_alphabet : List Char :=
  "abcdefghijklmnopqrstuvwxyz".data

/-- Per-code branch of `decode_zmachine_text`: code 0 is a space, codes 6-31
index the alphabet, codes 4 and 5 (shifts) are skipped, and codes 1-3 fall
through every branch and also produce nothing. -/
def zchar_to_text (c : Nat) : List Char :=
  if c == 0 then [' ']
  else if 6 ≤ c ∧ c ≤ 31 then [zscii_alphabet.getD (c - 6) ' ']
  else []

/-- Word loop of `decode_zmachine_text`: 16-bit big-endian words, three
5-bit codes per word, halting after the first word whose top bit is set or
when fewer than two bytes remain. -/
def decode_zwords : List Nat → List Char
  | [] => []
  | [_] => []
  | b1 :: b2 :: rest =>
    let word := (b1 <<< 8) ||| b2
    let c1 := (word >>> 10) &&& 0x1F
    let c2 := (word >>> 5) &&& 0x1F
    let c3 := word &&& 0x1F
    let chunk := zchar_to_text c1 ++ zchar_to_text c2 ++ zchar_to_text c3
    if word &&& 0x8000 != 0 then chunk
    else chunk ++ decode_zwords rest

/-- Leading-whitespace removal, the left half of Python's `str.strip()`. -/
def ltrim_ws (l : List Char) : List Char :=
  l.dropWhile Char.isWhitespace

/-- Trailing-whitespace removal, the right half of Python's `str.strip()`. -/
def rtrim_ws (l : List Char) : List Char :=
  (l.reverse.dropWhile Char.isWhitespace).reverse

/-- Python's `str.strip()`: whitespace removed from both ends. -/
def strip_ws (l : List Char) : List Char :=
  rtrim_ws (ltrim_ws l)

/-- `decode_zmachine_text`: decode all words, then `text.strip()`. -/
def decode_zmachine_text (data : List Nat) : String :=
  String.mk (strip_ws (decode_zwords data))

/-! ### Bounds of the instruction decoder -/

theorem decode_var_operands_le (data : List Nat) (tb : Nat) :
    ∀ (l : List Nat) (np : Nat),
      np ≤ (decode_var_operands data tb l np).2 ∧
      (decode_var_operands data tb l np).2 ≤ np + 2 * l.length := by
  intro l
  induction l with
  | nil => intro np; simp [decode_var_operands]
  | cons i rest ih =>
    intro np
    simp only [decode_var_operands, List.length_cons]
    split
    · omega
    · split
      · have h := ih (np + 2)
        simp only []
        omega
      · have h := ih (np + 1)
        simp only []
        omega

theorem decode_long_form_nextPc (data : List Nat) (pc : Nat) :
    pc + 3 ≤ (decode_long_form data pc).nextPc ∧
    (decode_long_form data pc).nextPc ≤ pc + 4 := by
  simp only [decode_long_form]
  split_ifs <;> simp

theorem decode_short_form_nextPc (data : List Nat) (pc : Nat) :
    pc + 1 ≤ (decode_short_form data pc).nextPc ∧
    (decode_short_form data pc).nextPc ≤ pc + 4 := by
  simp only [decode_short_form]
  split_ifs <;> simp

theorem decode_variable_form_nextPc (data : List Nat) (pc : Nat) :
    pc + 2 ≤ (decode_variable_form data pc).nextPc ∧
    (decode_variable_form data pc).nextPc ≤ pc + 11 := by
  have h := decode_var_operands_le data (get_byte data (pc + 1)) [0, 1, 2, 3] (pc + 2)
  simp only [List.length_cons, List.length_nil] at h
  simp only [decode_variable_form]
  split_ifs <;> omega

theorem decode_eof (data : List Nat) (pc : Nat) (h : data.length ≤ pc) :
    decode_instruction_at data pc = ⟨"EOF", pc, [], none⟩ := by
  unfold decode_instruction_at
  rw [if_pos h]

theorem decode_nextPc_bounds (data : List Nat) (pc : Nat) (h : pc < data.length) :
    pc < (decode_instruction_at data pc).nextPc ∧
    (decode_instruction_at data pc).nextPc ≤ pc + 11 := by
  unfold decode_instruction_at
  rw [if_neg (by omega)]
  split_ifs
  · have := decode_long_form_nextPc data pc; omega
  · have := decode_short_form_nextPc data pc; omega
  · have := decode_variable_form_nextPc data pc; omega

/-! ### Claim theorems for the instruction decoder -/

/-- Claim C1, counterexample: the variable-form instruction at pc 0 of the
buffer `[0xE0, 0x00]` (call_vs with four large-constant operands and a store
byte) consumes 11 bytes, so `nextPc - pc ≤ 9` fails at an in-range pc. -/
theorem C1_counterexample :
    0 < ([224, 0] : List Nat).length ∧
    ¬ ((decode_instruction_at [224, 0] 0).nextPc - 0 ≤ 9) := by
  refine ⟨by decide, ?_⟩
  have h : (decode_instruction_at [224, 0] 0).nextPc = 11 := by decide
  omega

/-- Claim C1, amended: for every in-range pc, `decode_instruction_at`
advances (`nextPc > pc`) and consumes at most 11 bytes — the variable form
can consume opcode byte, type byte, four two-byte large constants and a
store byte. -/
theorem C1_decode_progress_bound (data : List Nat) (pc : Nat)
    (h : pc < data.length) :
    pc < (decode_instruction_at data pc).nextPc ∧
    (decode_instruction_at data pc).nextPc - pc ≤ 11 := by
  have hb := decode_nextPc_bounds data pc h
  omega

/-- Witness for C1's amended theorem at the one-byte buffer `[0xB4]`. -/
theorem C1_witness :
    0 < ([180] : List Nat).length ∧
    (0 < (decode_instruction_at [180] 0).nextPc ∧
      (decode_instruction_at [180] 0).nextPc - 0 ≤ 11) :=
  ⟨by decide, C1_decode_progress_bound [180] 0 (by decide)⟩

/-- Claim C7: decoding is total — an out-of-range pc yields the sentinel
end-of-stream instruction, a byte read past the end is clamped to 0, and a
word read whose second byte would be past the end is clamped to 0. -/
theorem C7_decode_never_raises (data : List Nat) (pc addr waddr : Nat) :
    (data.length ≤ pc → decode_instruction_at data pc = ⟨"EOF", pc, [], none⟩) ∧
    (data.length ≤ addr → get_byte data addr = 0) ∧
    (data.length ≤ waddr + 1 → get_word data waddr = 0) := by
  refine ⟨fun h => decode_eof data pc h, fun h => ?_, fun h => ?_⟩
  · unfold get_byte; rw [if_pos h]
  · unfold get_word; rw [if_pos h]

/-- Witness for C7 on the buffer `[5]` with out-of-range addresses. -/
theorem C7_witness :
    decode_instruction_at [5] 1 = ⟨"EOF", 1, [], none⟩ ∧
    get_byte [5] 1 = 0 ∧ get_word [5] 0 = 0 := by
  have h := C7_decode_never_raises [5] 1 1 0
  exact ⟨h.1 (by decide), h.2.1 (by decide), h.2.2 (by decide)⟩

/-- Claim C10: at or past the buffer end the decoder returns the sentinel
`("EOF", pc, [], none)` whose `nextPc` equals `pc`; `nextPc = pc` happens
exactly at out-of-range pc; and a caller that iterates on `nextPc` alone
stays at `pc` forever. -/
theorem C10_eof_sentinel_stalls (data : List Nat) (pc n : Nat) :
    (data.length ≤ pc → decode_instruction_at data pc = ⟨"EOF", pc, [], none⟩) ∧
    ((decode_instruction_at data pc).nextPc = pc ↔ data.length ≤ pc) ∧
    (data.length ≤ pc →
      (fun q => (decode_instruction_at data q).nextPc)^[n] pc = pc) := by
  refine ⟨fun h => decode_eof data pc h, ⟨fun hEq => ?_, fun h => ?_⟩, fun h => ?_⟩
  · by_contra hlt
    have hb := decode_nextPc_bounds data pc (by omega)
    omega
  · rw [decode_eof data pc h]
  · exact Function.iterate_fixed (by rw [decode_eof data pc h]) n

/-- Witness for C10 at `pc = 1` on the one-byte buffer `[0]`. -/
theorem C10_witness :
    decode_instruction_at [0] 1 = ⟨"EOF", 1, [], none⟩ ∧
    (fun q => (decode_instruction_at [0] q).nextPc)^[3] 1 = 1 := by
  have h := C10_eof_sentinel_stalls [0] 1 3
  exact ⟨h.1 (by decide), h.2.2 (by decide)⟩

/-! ### Step bounds of the tracer -/

theorem trace_steps_length_le (data : List Nat) (hm sm : Nat) :
    ∀ (fuel pc : Nat), (trace_steps data hm sm pc fuel).length ≤ fuel := by
  intro fuel
  induction fuel with
  | zero => intro pc; simp [trace_steps]
  | succ n ih =>
    intro pc
    simp only [trace_steps]
    split
    · simp
    · split
      · simp
      · simpa using Nat.succ_le_succ (ih _)

theorem trace_steps_length_of_free (data : List Nat) (hm sm : Nat) :
    ∀ (fuel pc : Nat), runs_free data pc fuel = true →
      (trace_steps data hm sm pc fuel).length = fuel := by
  intro fuel
  induction fuel with
  | zero => intro pc _; simp [trace_steps]
  | succ n ih =>
    intro pc h
    simp only [runs_free] at h
    simp only [trace_steps]
    split at h
    · simp at h
    · split at h
      · simp at h
      · rename_i h1 h2
        rw [if_neg h1, if_neg h2]
        simpa using ih _ h

/-! ### Bounds of the property walk -/

theorem basic_prop_size_le_eight (size_byte : Nat) : basic_prop_size size_byte ≤ 8 := by
  unfold basic_prop_size
  have := @Nat.and_le_right (size_byte >>> 5) 7
  omega

theorem basic_prop_size_pos (size_byte : Nat) : 1 ≤ basic_prop_size size_byte := by
  unfold basic_prop_size
  omega

theorem walk_properties_spec (data : List Nat) (obj : Nat) :
    ∀ (n addr c : Nat), 50 - c ≤ n →
      (walk_properties data obj addr c).1 = [] ∧
      (walk_properties data obj addr c).2 ≤ max c 50 := by
  intro n
  induction n with
  | zero =>
    intro addr c h
    rw [walk_properties]
    have hsz := basic_prop_size_le_eight (data.getD addr 0)
    split_ifs <;> simp_all <;> omega
  | succ n ih =>
    intro addr c h
    rw [walk_properties]
    have hsz := basic_prop_size_le_eight (data.getD addr 0)
    split_ifs with h1 h2 h3
    · exact ⟨rfl, by omega⟩
    · omega
    · have hr := ih (addr + 1 + basic_prop_size (data.getD addr 0)) (c + 1) (by omega)
      exact ⟨hr.1, by have := hr.2; omega⟩
    · exact ⟨rfl, by omega⟩

theorem walk_properties_fst (data : List Nat) (obj addr c : Nat) :
    (walk_properties data obj addr c).1 = [] :=
  (walk_properties_spec data obj (50 - c) addr c le_rfl).1

theorem walk_properties_snd (data : List Nat) (obj addr : Nat) :
    (walk_properties data obj addr 0).2 ≤ 50 := by
  have h := (walk_properties_spec data obj 50 addr 0 (by omega)).2
  simpa using h

theorem analyze_object_properties_fst (data : List Nat) (obj pta : Nat) :
    (analyze_object_properties data obj pta).1 = [] := by
  unfold analyze_object_properties
  split_ifs
  · rfl
  · exact walk_properties_fst data obj _ 0

theorem analyze_object_properties_snd (data : List Nat) (obj pta : Nat) :
    (analyze_object_properties data obj pta).2 ≤ 50 := by
  unfold analyze_object_properties
  split_ifs
  · omega
  · exact walk_properties_snd data obj _

theorem walk_objects_spec (data : List Nat) :
    ∀ (n k addr : Nat), 101 - k ≤ n →
      (walk_objects data k addr).length ≤ max (101 - k) 1 ∧
      ∀ o ∈ walk_objects data k addr, o.violations = [] ∧ o.prop_count ≤ 50 := by
  intro n
  induction n with
  | zero =>
    intro k addr h
    rw [walk_objects]
    split_ifs with h1 h2 h3 h4
    · exact ⟨by simp, by simp⟩
    · exact ⟨by simp, by simp⟩
    · refine ⟨by simp, ?_⟩
      intro o ho
      rw [List.mem_singleton] at ho
      subst ho
      exact ⟨analyze_object_properties_fst data k _, analyze_object_properties_snd data k _⟩
    · omega
    · exact ⟨by simp, by simp⟩
  | succ n ih =>
    intro k addr h
    rw [walk_objects]
    split_ifs with h1 h2 h3 h4
    · exact ⟨by simp, by simp⟩
    · exact ⟨by simp, by simp⟩
    · refine ⟨by simp, ?_⟩
      intro o ho
      rw [List.mem_singleton] at ho
      subst ho
      exact ⟨analyze_object_properties_fst data k _, analyze_object_properties_snd data k _⟩
    · have hr := ih (k + 1) (addr + 9) (by omega)
      refine ⟨?_, ?_⟩
      · have := hr.1
        simp only [List.length_cons]
        omega
      · intro o ho
        rw [List.mem_cons] at ho
        rcases ho with ho | ho
        · subst ho
          exact ⟨analyze_object_properties_fst data k _, analyze_object_properties_snd data k _⟩
        · exact hr.2 o ho
    · exact ⟨by simp, by simp⟩

theorem walk_objects_length (data : List Nat) (addr : Nat) :
    (walk_objects data 1 addr).length ≤ 100 := by
  have h := (walk_objects_spec data 100 1 addr (by omega)).1
  simpa using h

theorem walk_objects_violations (data : List Nat) (addr : Nat) :
    ∀ o ∈ walk_objects data 1 addr, o.violations = [] ∧ o.prop_count ≤ 50 :=
  (walk_objects_spec data 100 1 addr (by omega)).2

theorem collect_violations_eq_nil :
    ∀ l : List ObjAnalysis, (∀ o ∈ l, o.violations = []) → collect_violations l = [] := by
  intro l
  induction l with
  | nil => intro _; rfl
  | cons o rest ih =>
    intro h
    unfold collect_violations
    rw [h o (by simp), ih fun o ho => h o (List.mem_cons_of_mem _ ho)]
    rfl

/-! ### Claim theorems for the property analyzer -/

/-- Claim C2, counterexample: no input buffer whatsoever makes
`analyze_object_properties` yield a Violation of size 9 (or any Violation at
all) — the basic size byte cannot encode a size above 8, so the crafted
buffer the claim posits does not exist. -/
theorem C2_counterexample :
    ¬ ∃ (data : List Nat) (objNum addr : Nat) (v : Violation),
        v ∈ (analyze_object_properties data objNum addr).1 ∧ v.size = 9 := by
  rintro ⟨d, o, a, v, hv, _⟩
  rw [analyze_object_properties_fst] at hv
  exact List.not_mem_nil v hv

/-- Claim C2, amended: the basic-format decoded size
`((size_byte >> 5) & 7) + 1` always lies in `[1, 8]`, so no size byte
encodes 9 and the analyzer's violation list is empty for every object; the
`size > 8` branch is present but unreachable. -/
theorem C2_basic_size_in_range (size_byte : Nat) (data : List Nat) (objNum addr : Nat) :
    1 ≤ basic_prop_size size_byte ∧ basic_prop_size size_byte ≤ 8 ∧
    (analyze_object_properties data objNum addr).1 = [] :=
  ⟨basic_prop_size_pos size_byte, basic_prop_size_le_eight size_byte,
   analyze_object_properties_fst data objNum addr⟩

/-- Claim C3: for every input buffer `analyze_properties` returns an empty
violation list — the decoded basic size is always at most 8, so the
violation branch never fires — and hence the violation-count exit status is
always 0. -/
theorem C3_no_violations_exit_zero (data : List Nat) :
    analyze_properties data = [] ∧ main_exit_code data = 0 := by
  have h : analyze_properties data = [] :=
    collect_violations_eq_nil _ fun o ho =>
      (walk_objects_violations data (obj_entries_start data) o ho).1
  exact ⟨h, by unfold main_exit_code; rw [h]; rfl⟩

/-- Claim C8: the object walk analyzes at most 100 objects and at most 50
properties per object; the trace performs at most `fuel` steps, and exactly
`fuel` steps whenever the decode trajectory stays in bounds and hits no
terminal opcode. -/
theorem C8_iteration_caps (data : List Nat) (hm sm pc fuel : Nat) :
    (walk_objects data 1 (obj_entries_start data)).length ≤ 100 ∧
    (∀ o ∈ walk_objects data 1 (obj_entries_start data), o.prop_count ≤ 50) ∧
    (trace_steps data hm sm pc fuel).length ≤ fuel ∧
    (runs_free data pc fuel = true → (trace_steps data hm sm pc fuel).length = fuel) :=
  ⟨walk_objects_length data _,
   fun o ho => (walk_objects_violations data _ o ho).2,
   trace_steps_length_le data hm sm fuel pc,
   fun h => trace_steps_length_of_free data hm sm fuel pc h⟩

/-- Witness for C8: three one-byte `nop` instructions traced with budget 3
take exactly 3 steps. -/
theorem C8_witness :
    runs_free [180, 180, 180] 0 3 = true ∧
    (trace_steps [180, 180, 180] 1000 500 0 3).length = 3 :=
  ⟨by decide, (C8_iteration_caps [180, 180, 180] 1000 500 0 3).2.2.2 (by decide)⟩

/-! ### Claim theorems for header parsing -/

/-- Claim C9: header parsing fails exactly when the buffer is shorter than
16 bytes; any buffer of at least 16 bytes parses into the fields read at
offsets 0 (one byte) and 4, 6, 8, 10, 12, 14 (big-endian words), with no
range validation on the values. -/
theorem C9_header_parse_iff (data : List Nat) :
    (parse_header data = none ↔ data.length < 16) ∧
    (16 ≤ data.length →
      parse_header data = some
        ⟨data.getD 0 0,
         256 * data.getD 4 0 + data.getD 5 0,
         256 * data.getD 6 0 + data.getD 7 0,
         256 * data.getD 8 0 + data.getD 9 0,
         256 * data.getD 10 0 + data.getD 11 0,
         256 * data.getD 12 0 + data.getD 13 0,
         256 * data.getD 14 0 + data.getD 15 0⟩) := by
  have key : parse_header data =
      if 16 ≤ data.length then
        some ⟨data.getD 0 0,
              256 * data.getD 4 0 + data.getD 5 0,
              256 * data.getD 6 0 + data.getD 7 0,
              256 * data.getD 8 0 + data.getD 9 0,
              256 * data.getD 10 0 + data.getD 11 0,
              256 * data.getD 12 0 + data.getD 13 0,
              256 * data.getD 14 0 + data.getD 15 0⟩
      else none := by
    unfold parse_header read_byte0 unpack_word
    split_ifs <;> first | rfl | omega
  rw [key]
  constructor
  · split_ifs with h
    · simp
      omega
    · simp
      omega
  · intro h
    rw [if_pos h]

/-- Witness for C9 on a 16-byte all-zero buffer. -/
theorem C9_witness :
    16 ≤ (List.replicate 16 0 : List Nat).length ∧
    parse_header (List.replicate 16 0) = some ⟨0, 0, 0, 0, 0, 0, 0⟩ := by
  have h := (C9_header_parse_iff (List.replicate 16 0)).2 (by decide)
  exact ⟨by decide, by rw [h]; decide⟩

/-! ### Claim theorems for the property-entry decoder -/

/-- Claim C4, counterexample: on the buffer `[0xA1, 0x02]` at offset 0 the
leading byte has its top bit set, yet the decoder returns property number 1
(low 5 bits of `0xA1`, not its low 6 bits, which are 33) and size 33 (low 6
bits of the leading byte, not the following byte's low 6 bits, which are 2). -/
theorem C4_counterexample :
    (decode_property_entry [161, 2] 0).number ≠ some (161 &&& 0x3F) ∧
    (decode_property_entry [161, 2] 0).size ≠ some (2 &&& 0x3F) ∧
    decode_property_entry [161, 2] 0 = ⟨some 1, some 33, some [], 35⟩ := by decide

/-- Claim C4, amended: for an in-range entry whose leading byte has the top
bit set, `decode_property_entry` takes the property number from the leading
byte's low 5 bits and the size from the leading byte's own low 6 bits (raw 0
meaning 64); the byte after the leading byte is skipped and the data starts
two bytes in. -/
theorem C4_extended_entry (data : List Nat) (offset : Nat)
    (h : offset < data.length) (hext : data.getD offset 0 &&& 0x80 ≠ 0) :
    decode_property_entry data offset =
      ⟨some (data.getD offset 0 &&& 0x1F),
       some (ext_prop_size (data.getD offset 0)),
       some ((data.drop (offset + 2)).take (ext_prop_size (data.getD offset 0))),
       offset + 2 + ext_prop_size (data.getD offset 0)⟩ := by
  unfold decode_property_entry
  rw [if_neg (by omega)]
  have hb : (data.getD offset 0 &&& 0x80 != 0) = true := by
    simpa using hext
  simp only [hb, if_true]

/-- Witness for C4's amended theorem on the buffer `[0x80]` (raw extended
size 0, meaning 64). -/
theorem C4_witness :
    0 < ([128] : List Nat).length ∧
    decode_property_entry [128] 0 = ⟨some 0, some 64, some [], 66⟩ := by
  have h := C4_extended_entry [128] 0 (by decide) (by decide)
  exact ⟨by decide, by rw [h]; decide⟩

/-! ### Claim theorems for memory-region classification -/

/-- Claim C5, counterexample: with `staticMemoryBase = 5` and
`highMemoryBase = 10`, the address 10 sits exactly at the high-memory
boundary; the spec's classifier calls it High, but the trace's strict
comparisons label it Static and emit no high-memory warning. -/
theorem C5_counterexample :
    region_of 10 10 5 = Region.static ∧
    classify_spec 10 5 10 = Region.high ∧
    emits_high_memory_warning 10 10 = false := by decide

/-- Claim C5, amended: the trace's classification uses strict comparisons —
High exactly when `highMemoryBase < address`, Static exactly when
`staticMemoryBase < address ≤ highMemoryBase`, Dynamic exactly when
`address ≤ staticMemoryBase` (and `≤ highMemoryBase`); the high-memory
warning fires only strictly beyond the boundary, not at it. -/
theorem C5_region_boundaries (address static_memory high_memory : Nat) :
    (region_of address high_memory static_memory = Region.high ↔
      high_memory < address) ∧
    (region_of address high_memory static_memory = Region.static ↔
      static_memory < address ∧ address ≤ high_memory) ∧
    (region_of address high_memory static_memory = Region.dynamic ↔
      address ≤ static_memory ∧ address ≤ high_memory) ∧
    (emits_high_memory_warning address high_memory = true ↔ high_memory < address) := by
  unfold region_of emits_high_memory_warning
  split_ifs with h1 h2 <;>
    refine ⟨?_, ?_, ?_, ?_⟩ <;> simp <;> omega

/-! ### Claim theorems for the text decoder -/

theorem dropWhile_decomp {α : Type} (p : α → Bool) :
    ∀ l : List α, ∃ pre : List α, l = pre ++ l.dropWhile p ∧ pre.all p = true := by
  intro l
  induction l with
  | nil => exact ⟨[], by simp⟩
  | cons a t ih =>
    by_cases h : p a
    · obtain ⟨pre, h1, h2⟩ := ih
      refine ⟨a :: pre, ?_, by simp [h, h2]⟩
      rw [List.dropWhile_cons, if_pos h, List.cons_append]
      exact congrArg (a :: ·) h1
    · refine ⟨[], ?_, by simp⟩
      rw [List.dropWhile_cons, if_neg h, List.nil_append]

theorem head?_dropWhile_false {α : Type} (p : α → Bool) :
    ∀ (l : List α) (c : α), (l.dropWhile p).head? = some c → p c = false := by
  intro l
  induction l with
  | nil => intro c h; simp [List.dropWhile] at h
  | cons a t ih =>
    intro c h
    rw [List.dropWhile_cons] at h
    by_cases hp : p a
    · rw [if_pos hp] at h
      exact ih c h
    · rw [if_neg hp] at h
      have hac : a = c := by simpa using h
      subst hac
      revert hp
      cases p a <;> simp

theorem strip_ws_spec (l : List Char) :
    ∃ pre suf : List Char,
      l = pre ++ strip_ws l ++ suf ∧
      pre.all Char.isWhitespace = true ∧
      suf.all Char.isWhitespace = true ∧
      (((strip_ws l).take 1).all fun c => !c.isWhitespace) = true ∧
      (((strip_ws l).reverse.take 1).all fun c => !c.isWhitespace) = true := by
  obtain ⟨pre, hpre, hpreall⟩ := dropWhile_decomp Char.isWhitespace l
  obtain ⟨pre2, hpre2, hpre2all⟩ :=
    dropWhile_decomp Char.isWhitespace (ltrim_ws l).reverse
  have hstrip : strip_ws l = ((ltrim_ws l).reverse.dropWhile Char.isWhitespace).reverse := rfl
  have hm : ltrim_ws l =
      ((ltrim_ws l).reverse.dropWhile Char.isWhitespace).reverse ++ pre2.reverse := by
    have := congrArg List.reverse hpre2
    simpa using this
  refine ⟨pre, pre2.reverse, ?_, hpreall, ?_, ?_, ?_⟩
  · calc l = pre ++ ltrim_ws l := hpre
    _ = pre ++ (strip_ws l ++ pre2.reverse) := by rw [hstrip, ← hm]
    _ = pre ++ strip_ws l ++ pre2.reverse := by rw [List.append_assoc]
  · simpa using hpre2all
  · rw [hstrip]
    cases hc : ((ltrim_ws l).reverse.dropWhile Char.isWhitespace).reverse with
    | nil => simp
    | cons c t =>
      have hhd : (l.dropWhile Char.isWhitespace).head? = some c := by
        have : ltrim_ws l = c :: (t ++ pre2.reverse) := by
          rw [hm, hc, List.cons_append]
        unfold ltrim_ws at this
        rw [this]
        rfl
      have hcf := head?_dropWhile_false Char.isWhitespace l c hhd
      simp [hcf]
  · rw [hstrip, List.reverse_reverse]
    cases hX : (ltrim_ws l).reverse.dropWhile Char.isWhitespace with
    | nil => simp
    | cons c t =>
      have hhd : ((ltrim_ws l).reverse.dropWhile Char.isWhitespace).head? = some c := by
        rw [hX]
        rfl
      have hcf := head?_dropWhile_false Char.isWhitespace (ltrim_ws l).reverse c hhd
      simp [hcf]

/-- Claim C6, counterexample: the two-byte input `[0x00, 0xC6]` decodes to
the raw characters space, a, a; the claim predicts only trailing spaces are
removed (giving " aa"), but `strip()` removes the leading space too and the
result is "aa". -/
theorem C6_counterexample :
    decode_zwords [0, 198] = [' ', 'a', 'a'] ∧
    decode_zmachine_text [0, 198] = "aa" ∧
    decode_zmachine_text [0, 198] ≠ String.mk (rtrim_ws (decode_zwords [0, 198])) := by
  decide

/-- Claim C6, amended: the decoder's result is the raw word-by-word decode
trimmed of whitespace at BOTH ends — the dropped prefix and suffix are all
whitespace, everything between them is preserved, and the result neither
starts nor ends with whitespace.  Leading spaces decoded from character
code 0 are therefore not preserved. -/
theorem C6_strip_both_ends (data : List Nat) :
    ∃ pre suf : List Char,
      decode_zwords data = pre ++ (decode_zmachine_text data).data ++ suf ∧
      pre.all Char.isWhitespace = true ∧
      suf.all Char.isWhitespace = true ∧
      (((decode_zmachine_text data).data.take 1).all fun c => !c.isWhitespace) = true ∧
      (((decode_zmachine_text data).data.reverse.take 1).all fun c => !c.isWhitespace)
        = true := by
  have h : (decode_zmachine_text data).data = strip_ws (decode_zwords data) := rfl
  rw [h]
  exact strip_ws_spec (decode_zwords data)

end ZMach
